import Mathlib

/-!
# Verification of the `1cbyc-state-management` repository

Shallow embedding of the two core source files:

* `src/stateManager.js` — the `StateManager` class: mutation/notification
  pipeline, middleware, undo/redo history, debouncing, batching,
  listener subscription.
* `src/persistenceMiddleware.js` — the `PersistenceMiddleware` class:
  file-based save/load/backup/validate operations.

Modelling choices, recorded once here:

* JavaScript values held in the state are modelled by the inductive
  `JVal` (JSON-representable data: numbers, strings, booleans, null,
  and objects as insertion-ordered association lists).  A top-level
  state object is `Obj`.
* `JSON.parse (JSON.stringify x)` (the deep-clone idiom used by the
  code in deep-comparison mode) is modelled by the structural copy
  `cloneFields`; the spread `{...x}` (shallow copy of the top level)
  is modelled by `List.map id`.  In this value-level model both are
  provably the identity; aliasing questions (claim C7) are treated in
  a separate explicit-heap model further below.
* Middleware functions can only observe `(prevState, nextState)` and
  possibly throw — they cannot change the candidate state — so a
  middleware entry is modelled by its observable behaviour: an entry
  id, an `enabled` flag, and `throwsErr : Option Nat` (`some e` means
  the function throws/rejects with error `e` when invoked).
* Listeners / event callbacks are compared by JavaScript reference
  identity (`l !== listener`); a reference is modelled as a `Nat` id.
* Observable side effects of one operation (which middleware entries
  ran, which errors reached `handleError`, how many commits and
  notification passes happened) are collected in an `Effects` value
  returned alongside the updated manager.
* The JS arrays `undoStack`/`redoStack` are used with `push`/`pop` at
  the end only; we keep the stack top at the HEAD of a Lean list.
* `setTimeout`/`clearTimeout` debouncing is modelled by a single
  `pendingDebounce` slot (scheduling overwrites any pending entry,
  exactly as `clearTimeout` followed by `setTimeout` does) and an
  explicit `fireDebounce` step standing for the delay elapsing.
* `localStorage` is absent in the modelled host (`typeof localStorage
  !== 'undefined'` fails), so `persistStateToLocalStorage` and the
  constructor's read-back are no-ops and are omitted.
-/

/-- A JavaScript/JSON value: number, string, boolean, null, or an
object given as an insertion-ordered association list of fields. -/
inductive JVal where
  | num : Int → JVal
  | str : String → JVal
  | bool : Bool → JVal
  | null : JVal
  | obj : List (String × JVal) → JVal
deriving Repr

/-- A top-level state object: insertion-ordered fields. -/
abbrev Obj := List (String × JVal)

/-- JavaScript property assignment `o[k] = v` on an object literal
model: an existing key is overwritten in place (keeping its position),
a new key is appended.  This is the per-key step of both the spread
`{...base, ...over}` and `Object.assign`. -/
def setKey (o : Obj) (k : String) (v : JVal) : Obj :=
  if o.any (fun kv => kv.1 == k) then
    o.map (fun kv => if kv.1 == k then (k, v) else kv)
  else
    o ++ [(k, v)]

/-- `{...base, ...over}` / `Object.assign(base, over)`: fold the
fields of `over` into `base`, later keys winning. -/
def objAssign (base over : Obj) : Obj :=
  over.foldl (fun acc kv => setKey acc kv.1 kv.2) base

mutual
/-- `JSON.parse(JSON.stringify v)`: structural deep copy of a value
(in this value-level model it rebuilds the tree node by node). -/
def cloneVal : JVal → JVal
  | .num n => .num n
  | .str s => .str s
  | .bool b => .bool b
  | .null => .null
  | .obj fs => .obj (cloneFields fs)

/-- Deep copy of an object's field list. -/
def cloneFields : List (String × JVal) → List (String × JVal)
  | [] => []
  | (k, v) :: rest => (k, cloneVal v) :: cloneFields rest
end

/-- The copy applied to a state object on read and on commit:
`JSON.parse(JSON.stringify o))` when deep comparison is enabled,
the shallow spread `{...o}` otherwise. -/
def cloneObj (deep : Bool) (o : Obj) : Obj :=
  if deep then cloneFields o else o.map id

mutual
theorem cloneVal_eq : ∀ v : JVal, cloneVal v = v
  | .num _ => rfl
  | .str _ => rfl
  | .bool _ => rfl
  | .null => rfl
  | .obj fs => by rw [cloneVal, cloneFields_eq fs]

theorem cloneFields_eq : ∀ l : List (String × JVal), cloneFields l = l
  | [] => rfl
  | (k, v) :: rest => by rw [cloneFields, cloneVal_eq v, cloneFields_eq rest]
end

theorem cloneObj_eq (deep : Bool) (o : Obj) : cloneObj deep o = o := by
  cases deep <;> simp [cloneObj, cloneFields_eq]

/-- One registered middleware: `applyMiddleware` pushes
`{ middleware, enabled: true, options }`.  The function itself is
modelled by its observable behaviour (`throwsErr`), see the header. -/
structure MwEntry where
  id : Nat
  throwsErr : Option Nat
  enabled : Bool
deriving Repr, DecidableEq

/-- Observable side effects of one state-manager operation. -/
structure Effects where
  ran : List Nat
  errors : List Nat
  commits : Nat
  notifyPasses : Nat
deriving Repr, DecidableEq

def Effects.none : Effects := ⟨[], [], 0, 0⟩

/-- Sequencing of effects of two consecutive operations. -/
def Effects.seq (a b : Effects) : Effects :=
  ⟨a.ran ++ b.ran, a.errors ++ b.errors, a.commits + b.commits,
    a.notifyPasses + b.notifyPasses⟩

/-- The `StateManager` instance fields used by the modelled methods. -/
structure Manager where
  state : Obj
  initialStateField : Obj
  listeners : List Nat
  middlewares : List MwEntry
  eventListeners : List (String × List Nat)
  undoStack : List Obj
  redoStack : List Obj
  prevState : Obj
  pendingDebounce : Option (Obj × Bool)
  debounceDelay : Nat
  batchUpdatePending : Bool
  batchUpdateQueue : List Obj
  deepStateComparison : Bool
deriving Repr

/-- `new StateManager(initialState)` in a host without `localStorage`. -/
def mkManager (init : Obj) : Manager :=
  { state := init
    initialStateField := init.map id
    listeners := []
    middlewares := []
    eventListeners := []
    undoStack := []
    redoStack := []
    prevState := init.map id
    pendingDebounce := Option.none
    debounceDelay := 200
    batchUpdatePending := false
    batchUpdateQueue := []
    deepStateComparison := false }

/-- `applyMiddlewares(prevState, nextState)`: filter the enabled
entries, then invoke each in order inside its own try/catch; a thrown
error goes to `handleError` and the loop continues.  Returns the ids
that were invoked and the errors handled, in order. -/
def applyMiddlewares (mws : List MwEntry) : List Nat × List Nat :=
  let enabled := (mws.filter (fun m => m.enabled)).map (fun m => (m.id, m.throwsErr))
  enabled.foldl
    (fun acc m =>
      match m.2 with
      | Option.some e => (acc.1 ++ [m.1], acc.2 ++ [e])
      | Option.none => (acc.1 ++ [m.1], acc.2))
    ([], [])

/-- `applyStateUpdate(nextState, addToUndoStack)`: run the middleware
pipeline, push a copy of the current (pre-commit) state onto the undo
stack and clear the redo stack when history is recorded, record the
pre-commit state as `prevState`, swap in `nextState`, then notify. -/
def applyStateUpdate (sm : Manager) (nextState : Obj) (addToUndoStack : Bool) :
    Manager × Effects :=
  let mw := applyMiddlewares sm.middlewares
  let sm1 :=
    if addToUndoStack then
      { sm with
          undoStack := cloneObj sm.deepStateComparison sm.state :: sm.undoStack
          redoStack := [] }
    else sm
  let sm2 :=
    { sm1 with
        prevState := cloneObj sm1.deepStateComparison sm1.state
        state := nextState }
  (sm2, ⟨mw.1, mw.2, 1, 1⟩)

/-- `setState(newState, addToUndoStack, debounce)`: copy the candidate
per the active copy mode; with `debounce` set, cancel any pending
scheduled commit and schedule this one (the `pendingDebounce` slot);
otherwise commit immediately. -/
def setState (sm : Manager) (newState : Obj) (addToUndoStack debounce : Bool) :
    Manager × Effects :=
  let nextState := cloneObj sm.deepStateComparison newState
  if debounce then
    ({ sm with pendingDebounce := Option.some (nextState, addToUndoStack) },
      Effects.none)
  else
    applyStateUpdate sm nextState addToUndoStack

/-- The debounce delay elapsing with a scheduled commit pending: the
`setTimeout` callback runs `applyStateUpdate` with the captured
arguments.  With nothing pending this is a no-op. -/
def fireDebounce (sm : Manager) : Manager × Effects :=
  match sm.pendingDebounce with
  | Option.none => (sm, Effects.none)
  | Option.some (s, a) =>
      applyStateUpdate { sm with pendingDebounce := Option.none } s a

/-- `mergeState(partialState)`: shallow-merge over the current state,
run middleware, record `prevState`, swap, notify.  Does not touch the
undo/redo stacks. -/
def mergeState (sm : Manager) (p : Obj) : Manager × Effects :=
  let nextState := cloneObj sm.deepStateComparison (objAssign sm.state p)
  let mw := applyMiddlewares sm.middlewares
  ({ sm with
      prevState := cloneObj sm.deepStateComparison sm.state
      state := nextState },
    ⟨mw.1, mw.2, 1, 1⟩)

/-- `patchState(partialState)`: textually identical to `mergeState`. -/
def patchState (sm : Manager) (p : Obj) : Manager × Effects :=
  let nextState := cloneObj sm.deepStateComparison (objAssign sm.state p)
  let mw := applyMiddlewares sm.middlewares
  ({ sm with
      prevState := cloneObj sm.deepStateComparison sm.state
      state := nextState },
    ⟨mw.1, mw.2, 1, 1⟩)

/-- `undo()`: no-op on an empty undo stack; otherwise pop the most
recent snapshot, push a copy of the current state onto the redo stack,
make the popped snapshot current, and notify (no middleware). -/
def undo (sm : Manager) : Manager × Effects :=
  match sm.undoStack with
  | [] => (sm, Effects.none)
  | p :: rest =>
      ({ sm with
          undoStack := rest
          redoStack := cloneObj sm.deepStateComparison sm.state :: sm.redoStack
          state := p },
        ⟨[], [], 0, 1⟩)

/-- `redo()`: the mirror of `undo` against the redo stack. -/
def redo (sm : Manager) : Manager × Effects :=
  match sm.redoStack with
  | [] => (sm, Effects.none)
  | n :: rest =>
      ({ sm with
          redoStack := rest
          undoStack := cloneObj sm.deepStateComparison sm.state :: sm.undoStack
          state := n },
        ⟨[], [], 0, 1⟩)

/-- `startBatchUpdate()`. -/
def startBatchUpdate (sm : Manager) : Manager :=
  { sm with batchUpdatePending := true, batchUpdateQueue := [] }

/-- `queueBatchUpdate(partialState)`: append to the queue while a
batch is open, otherwise fall back to an immediate merge-commit. -/
def queueBatchUpdate (sm : Manager) (p : Obj) : Manager × Effects :=
  if sm.batchUpdatePending then
    ({ sm with batchUpdateQueue := sm.batchUpdateQueue ++ [p] }, Effects.none)
  else
    mergeState sm p

/-- `endBatchUpdate()`: close the batch; if anything was queued, fold
the queue with `Object.assign({}, ...queue)` and commit it through
`setState` (history recorded, no debounce); otherwise do nothing. -/
def endBatchUpdate (sm : Manager) : Manager × Effects :=
  let sm1 := { sm with batchUpdatePending := false }
  match sm1.batchUpdateQueue with
  | [] => (sm1, Effects.none)
  | _ :: _ =>
      let nextState := sm1.batchUpdateQueue.foldl objAssign []
      setState { sm1 with batchUpdateQueue := [] } nextState true false

/-- `subscribe(listener)`: push the listener. -/
def subscribe (sm : Manager) (l : Nat) : Manager :=
  { sm with listeners := sm.listeners ++ [l] }

/-- The detach closure returned by `subscribe`: filter out every entry
that is reference-equal to the captured listener. -/
def unsubscribeAll (sm : Manager) (l : Nat) : Manager :=
  { sm with listeners := sm.listeners.filter (fun x => x != l) }

/-- Lookup of `eventListeners[eventName]`, `[]` when absent. -/
def eventCallbacks (sm : Manager) (name : String) : List Nat :=
  match sm.eventListeners.find? (fun kv => kv.1 == name) with
  | Option.some kv => kv.2
  | Option.none => []

/-- Replace (or create) the callback list stored under one event name. -/
def setEventCallbacks (els : List (String × List Nat)) (name : String)
    (cbs : List Nat) : List (String × List Nat) :=
  if els.any (fun kv => kv.1 == name) then
    els.map (fun kv => if kv.1 == name then (name, cbs) else kv)
  else
    els ++ [(name, cbs)]

/-- `on(eventName, callback)`: create the list if missing, push. -/
def onEvent (sm : Manager) (name : String) (cb : Nat) : Manager :=
  { sm with
      eventListeners :=
        setEventCallbacks sm.eventListeners name (eventCallbacks sm name ++ [cb]) }

/-- The detach closure returned by `on`: filter the captured event's
list by reference inequality with the captured callback.  (The list
exists whenever this closure is reachable, since `on` created it.) -/
def offEvent (sm : Manager) (name : String) (cb : Nat) : Manager :=
  { sm with
      eventListeners :=
        setEventCallbacks sm.eventListeners name
          ((eventCallbacks sm name).filter (fun x => x != cb)) }

/-- `getRedoStackSize()`. -/
def getRedoStackSize (sm : Manager) : Nat := sm.redoStack.length

/-- `getUndoStackSize()`. -/
def getUndoStackSize (sm : Manager) : Nat := sm.undoStack.length

/-!
## Persistence service (`src/persistenceMiddleware.js`)

The filesystem collaborator is modelled by `FsState`: the existing
files (path to textual content) plus fault-injection sets naming the
paths on which `fs.writeFile` rejects and on which `fs.stat` rejects
for a reason other than absence.  `JSON.stringify` and `JSON.parse`
are host builtins (the spec treats the byte-level representation as a
collaborator), so the persistence operations take them as explicit
parameters: `stringify : Nat → JVal → String` (indentation width,
value) is total — our `JVal` trees cannot be cyclic — and
`parse : String → Option JVal` returns `Option.none` where
`JSON.parse` would throw.
-/

/-- The filesystem collaborator. -/
structure FsState where
  files : List (String × String)
  failWrite : List String
  failStat : List String
deriving Repr, DecidableEq

/-- `fs.readFile(path)`: the content, or failure when absent. -/
def readFileFs (fs : FsState) (p : String) : Option String :=
  match fs.files.find? (fun kv => kv.1 == p) with
  | Option.some kv => Option.some kv.2
  | Option.none => Option.none

/-- Replace or create a file entry. -/
def putFile (files : List (String × String)) (p c : String) :
    List (String × String) :=
  if files.any (fun kv => kv.1 == p) then
    files.map (fun kv => if kv.1 == p then (p, c) else kv)
  else
    files ++ [(p, c)]

/-- `fs.writeFile(path, content)`: rejects on the injected fault set,
otherwise overwrites/creates the file. -/
def writeFileFs (fs : FsState) (p c : String) : Option FsState :=
  if p ∈ fs.failWrite then Option.none
  else Option.some { fs with files := putFile fs.files p c }

/-- `fs.copyFile(src, dst)`: rejects when the source is absent or the
destination write faults; otherwise duplicates the bytes. -/
def copyFileFs (fs : FsState) (src dst : String) : Option FsState :=
  match readFileFs fs src with
  | Option.none => Option.none
  | Option.some c => writeFileFs fs dst c

/-- `fs.stat(path).size`: fails when the file is absent or stat is in
the injected fault set. -/
def statSizeFs (fs : FsState) (p : String) : Option Nat :=
  if p ∈ fs.failStat then Option.none
  else
    match readFileFs fs p with
    | Option.some c => Option.some c.length
    | Option.none => Option.none

/-- `state.toString()` for the non-JSON branch of `saveState`; on
`null` JavaScript throws a `TypeError`, hence the `Option`. -/
def jsToString : JVal → Option String
  | .null => Option.none
  | .num n => Option.some (toString n)
  | .str s => Option.some s
  | .bool true => Option.some "true"
  | .bool false => Option.some "false"
  | .obj _ => Option.some "[object Object]"

/-- The `PersistenceMiddleware` instance fields. -/
structure PMiddleware where
  filePath : String
  spaces : Nat
  fileType : String
  version : Nat
deriving Repr, DecidableEq

/-- `new PersistenceMiddleware()` with the default arguments. -/
def mkPMiddleware : PMiddleware :=
  { filePath := "state.json", spaces := 2, fileType := "json", version := 1 }

/-- JavaScript truthiness of a value (`state && ...`). -/
def jsTruthy : JVal → Bool
  | .null => false
  | .bool b => b
  | .num n => n != 0
  | .str s => s != ""
  | .obj _ => true

/-- `saveState(state)`: serialize (JSON with the configured
indentation, or `toString` for other file types) and write the whole
file; `false` on any failure, which is caught locally. -/
def saveState (stringify : Nat → JVal → String) (pm : PMiddleware)
    (st : JVal) (fs : FsState) : Bool × FsState :=
  let ser :=
    if pm.fileType == "json" then Option.some (stringify pm.spaces st)
    else jsToString st
  match ser with
  | Option.none => (false, fs)
  | Option.some content =>
      match writeFileFs fs pm.filePath content with
      | Option.some fs1 => (true, fs1)
      | Option.none => (false, fs)

/-- `parseFileContent(content)`: `JSON.parse` for the JSON file type
(`null` where it throws), the raw content otherwise. -/
def parseFileContent (parse : String → Option JVal) (pm : PMiddleware)
    (content : String) : JVal :=
  if pm.fileType == "json" then
    match parse content with
    | Option.some v => v
    | Option.none => JVal.null
  else JVal.str content

/-- `loadState()`: read and deserialize; `null` on a read failure or
malformed content.  (JavaScript does not distinguish the `null`
sentinel from a legitimately parsed JSON `null`.) -/
def loadState (parse : String → Option JVal) (pm : PMiddleware)
    (fs : FsState) : JVal :=
  match readFileFs fs pm.filePath with
  | Option.none => JVal.null
  | Option.some content => parseFileContent parse pm content

/-- `validateState(state)`: true iff
`JSON.parse(JSON.stringify(state))` raises no error. -/
def validateState (stringify : Nat → JVal → String)
    (parse : String → Option JVal) (st : JVal) : Bool :=
  (parse (stringify 0 st)).isSome

/-- `loadStateWithValidation()`: `if (state && await
this.validateState(state)) return state; return null;`. -/
def loadStateWithValidation (stringify : Nat → JVal → String)
    (parse : String → Option JVal) (pm : PMiddleware) (fs : FsState) : JVal :=
  let st := loadState parse pm fs
  if jsTruthy st && validateState stringify parse st then st else JVal.null

/-- `backupState(state)`: `await this.saveState(state)` — whose result
is not inspected and which never throws (it contains its own failures)
— then `fs.copyFile(filePath, filePath + '.backup')`; `true` unless
the copy throws. -/
def backupState (stringify : Nat → JVal → String) (pm : PMiddleware)
    (st : JVal) (fs : FsState) : Bool × FsState :=
  let backupPath := pm.filePath ++ ".backup"
  let fs1 := (saveState stringify pm st fs).2
  match copyFileFs fs1 pm.filePath backupPath with
  | Option.some fs2 => (true, fs2)
  | Option.none => (false, fs1)

/-- `getFileSize()`: the stat size, or `0` when stat fails. -/
def getFileSize (pm : PMiddleware) (fs : FsState) : Nat :=
  match statSizeFs fs pm.filePath with
  | Option.some s => s
  | Option.none => 0

/-- `isFileEmpty()`: `size === 0`. -/
def isFileEmpty (pm : PMiddleware) (fs : FsState) : Bool :=
  getFileSize pm fs == 0

/-!
## Aliasing model for `getState()` (claim C7)

The value-level model above cannot express aliasing, so reads are
re-modelled over an explicit heap: a nested object is a reference
(`HVal.href`) into `Heap.objs`, and the manager's current state is the
field list of the top-level object.  `JSON.parse(JSON.stringify _)` is
the fuel-indexed `deepCopyObj`, which allocates fresh cells only at
the end of the heap; the spread `{...state}` is `shallowCopyObj`,
which rebuilds the top-level list but keeps the stored references.
External mutation through a value handed out by `getState` is
`heapSet` at a reference looked up in that value.
-/

/-- A heap-level JavaScript value: a primitive number or a reference
to a heap object. -/
inductive HVal where
  | hnum : Int → HVal
  | href : Nat → HVal
deriving Repr, DecidableEq

/-- A heap object: insertion-ordered fields of heap-level values. -/
abbrev HObj := List (String × HVal)

/-- The heap: cell `r` is `objs[r]`. -/
structure Heap where
  objs : List HObj
deriving Repr, DecidableEq

/-- Field lookup on a heap object. -/
def getFieldH (o : HObj) (k : String) : Option HVal :=
  match o.find? (fun kv => kv.1 == k) with
  | Option.some kv => Option.some kv.2
  | Option.none => Option.none

/-- Field assignment on a heap object (overwrite in place or append). -/
def setFieldH (o : HObj) (k : String) (v : HVal) : HObj :=
  if o.any (fun kv => kv.1 == k) then
    o.map (fun kv => if kv.1 == k then (k, v) else kv)
  else
    o ++ [(k, v)]

/-- In-place mutation `cell_r[k] = v` of the object stored at `r`. -/
def heapSet (h : Heap) (r : Nat) (k : String) (v : HVal) : Heap :=
  { objs := h.objs.set r (setFieldH (h.objs.getD r []) k v) }

mutual
/-- `JSON.parse(JSON.stringify _)` on a heap value: primitives are
copied, references are chased and a fresh cell is allocated at the end
of the heap for the copy.  The fuel (strictly decreasing on every
recursive call, so the recursion is structural and computable) bounds
the traversal; cyclic structures (where `JSON.stringify` throws)
exhaust any fuel. -/
def deepCopyVal : Nat → Heap → HVal → Option (Heap × HVal)
  | _, h, .hnum n => Option.some (h, .hnum n)
  | 0, _, .href _ => Option.none
  | fuel + 1, h, .href r =>
      match h.objs[r]? with
      | Option.none => Option.none
      | Option.some o =>
          match deepCopyObj fuel h o with
          | Option.none => Option.none
          | Option.some (h1, o1) =>
              Option.some ({ objs := h1.objs ++ [o1] }, .href h1.objs.length)

/-- Deep copy of a field list, threading the heap left to right. -/
def deepCopyObj : Nat → Heap → HObj → Option (Heap × HObj)
  | _, h, [] => Option.some (h, [])
  | 0, _, _ :: _ => Option.none
  | fuel + 1, h, (k, v) :: rest =>
      match deepCopyVal fuel h v with
      | Option.none => Option.none
      | Option.some (h1, v1) =>
          match deepCopyObj fuel h1 rest with
          | Option.none => Option.none
          | Option.some (h2, o2) => Option.some (h2, (k, v1) :: o2)
end

/-- The spread `{...state}`: a fresh top-level object with the same
field values — nested references are shared, not copied. -/
def shallowCopyObj (o : HObj) : HObj := o.map id

/-- The manager's read-relevant fields in the heap model. -/
structure HManager where
  state : HObj
  deepStateComparison : Bool
deriving Repr, DecidableEq

/-- `getState()` over the heap: a deep clone when deep comparison is
enabled, the shallow spread otherwise. -/
def getStateH (fuel : Nat) (h : Heap) (m : HManager) : Option (Heap × HObj) :=
  if m.deepStateComparison then deepCopyObj fuel h m.state
  else Option.some (h, shallowCopyObj m.state)

/-- The internal read `state[k1][k2]` used to observe whether an
external mutation leaked into the container. -/
def readNested (h : Heap) (m : HManager) (k1 k2 : String) : Option HVal :=
  match getFieldH m.state k1 with
  | Option.some (.href r) =>
      match h.objs[r]? with
      | Option.some cell => getFieldH cell k2
      | Option.none => Option.none
  | _ => Option.none

/-!
## Characterisations of the middleware loop
-/

/-- The ids of the enabled middleware entries, in insertion order. -/
def enabledIds (mws : List MwEntry) : List Nat :=
  (mws.filter (fun m => m.enabled)).map (fun m => m.id)

/-- The errors of the enabled, throwing middleware entries, in order:
one error per throwing entry. -/
def thrownErrors (mws : List MwEntry) : List Nat :=
  (mws.filter (fun m => m.enabled)).filterMap (fun m => m.throwsErr)

theorem applyMiddlewares_fold (l : List (Nat × Option Nat)) (xs ys : List Nat) :
    l.foldl
      (fun acc m =>
        match m.2 with
        | Option.some e => (acc.1 ++ [m.1], acc.2 ++ [e])
        | Option.none => (acc.1 ++ [m.1], acc.2))
      (xs, ys)
    = (xs ++ l.map Prod.fst, ys ++ l.filterMap Prod.snd) := by
  induction l generalizing xs ys with
  | nil => simp
  | cons hd tl ih =>
      obtain ⟨a, b⟩ := hd
      cases b with
      | none => simp [List.foldl_cons, ih, List.filterMap_cons]
      | some e => simp [List.foldl_cons, ih, List.filterMap_cons]

theorem applyMiddlewares_eq (mws : List MwEntry) :
    applyMiddlewares mws = (enabledIds mws, thrownErrors mws) := by
  unfold applyMiddlewares enabledIds thrownErrors
  rw [applyMiddlewares_fold]
  simp only [List.map_map, List.filterMap_map, List.nil_append]
  exact Prod.ext rfl rfl

/-!
## Claim C1 — `backupState` and a failing save
-/

/-- A concrete serializer for closed instances. -/
def stringifyC : Nat → JVal → String := fun _ _ => "x"

/-- Filesystem for the C1 counterexample: the primary path holds stale
bytes, and writes to the primary path fault. -/
def fsC1 : FsState :=
  { files := [("state.json", "old")]
    failWrite := ["state.json"]
    failStat := [] }

/-- C1 counterexample: the save step fails (`saveState` returns
`false`), yet `backupState` returns `true`, because it never inspects
the result of `saveState` (which contains its own errors and never
throws) and the copy of the stale primary file succeeds. -/
theorem c1_counterexample :
    (saveState stringifyC mkPMiddleware (JVal.obj []) fsC1).1 = false ∧
    (backupState stringifyC mkPMiddleware (JVal.obj []) fsC1).1 = true := by
  constructor <;> rfl

/-- C1 amended: `backupState` returns `false` exactly when the
byte-duplication step fails; a failure of the save step does not by
itself make it return `false`. -/
theorem c1_amended (stringify : Nat → JVal → String) (pm : PMiddleware)
    (st : JVal) (fs : FsState) :
    (backupState stringify pm st fs).1 = false ↔
      copyFileFs (saveState stringify pm st fs).2 pm.filePath
        (pm.filePath ++ ".backup") = Option.none := by
  unfold backupState
  cases h : copyFileFs (saveState stringify pm st fs).2 pm.filePath
      (pm.filePath ++ ".backup") <;> simp [h]

/-!
## Claim C9 — `loadStateWithValidation` and falsy values
-/

/-- C9: whatever `JSON.parse`-collaborator is plugged in, a falsy
deserialized value is turned into `null` by `loadStateWithValidation`
(the `state && ...` guard), and any non-null return is the loaded,
truthy value. -/
theorem c9_load_validation_falsy (stringify : Nat → JVal → String)
    (parse : String → Option JVal) (pm : PMiddleware) (fs : FsState) :
    (jsTruthy (loadState parse pm fs) = false →
      loadStateWithValidation stringify parse pm fs = JVal.null) ∧
    (loadStateWithValidation stringify parse pm fs = loadState parse pm fs ∨
      loadStateWithValidation stringify parse pm fs = JVal.null) ∧
    (loadStateWithValidation stringify parse pm fs ≠ JVal.null →
      jsTruthy (loadStateWithValidation stringify parse pm fs) = true ∧
      loadStateWithValidation stringify parse pm fs = loadState parse pm fs) := by
  unfold loadStateWithValidation
  cases ht : jsTruthy (loadState parse pm fs) <;>
    cases hv : validateState stringify parse (loadState parse pm fs) <;>
      simp [ht, hv]

/-- Concrete parse collaborator for the C9 witness: accepts exactly
the text `"0"`, as the number `0`. -/
def parseC9 : String → Option JVal :=
  fun s => if s == "0" then Option.some (JVal.num 0) else Option.none

/-- Serializer matching `parseC9` on the number `0`. -/
def stringifyC9 : Nat → JVal → String := fun _ _ => "0"

/-- Filesystem for the C9 witness: the primary file holds `0`. -/
def fsC9 : FsState := { files := [("state.json", "0")], failWrite := [], failStat := [] }

/-- C9 witness: the file reads and parses fine (to the falsy `0`),
`validateState` passes, and yet `loadStateWithValidation` is `null`. -/
theorem c9_witness :
    loadState parseC9 mkPMiddleware fsC9 = JVal.num 0 ∧
    validateState stringifyC9 parseC9 (JVal.num 0) = true ∧
    loadStateWithValidation stringifyC9 parseC9 mkPMiddleware fsC9 = JVal.null := by
  refine ⟨rfl, rfl, ?_⟩
  exact (c9_load_validation_falsy stringifyC9 parseC9 mkPMiddleware fsC9).1 rfl

/-!
## Claim C10 — missing file vs. empty file
-/

/-- C10: a failing stat yields size `0` and emptiness `true`, exactly
the outputs produced for an existing zero-length file; and an absent
file always makes stat fail. -/
theorem c10_missing_file_size_zero (pm : PMiddleware) (fs : FsState) :
    (statSizeFs fs pm.filePath = Option.none →
      getFileSize pm fs = 0 ∧ isFileEmpty pm fs = true) ∧
    (statSizeFs fs pm.filePath = Option.some 0 →
      getFileSize pm fs = 0 ∧ isFileEmpty pm fs = true) ∧
    (readFileFs fs pm.filePath = Option.none →
      statSizeFs fs pm.filePath = Option.none) := by
  refine ⟨?_, ?_, ?_⟩
  · intro h; unfold isFileEmpty getFileSize; simp [h]
  · intro h; unfold isFileEmpty getFileSize; simp [h]
  · intro h; unfold statSizeFs; simp [h]

/-- Filesystem with no files at all. -/
def fsMissing : FsState := { files := [], failWrite := [], failStat := [] }

/-- Filesystem whose primary file exists but is zero-length. -/
def fsEmptyFile : FsState :=
  { files := [("state.json", "")], failWrite := [], failStat := [] }

/-- C10 witness: on a missing file, size is `0` and `isFileEmpty` is
`true` — the same observations as for an existing empty file. -/
theorem c10_witness :
    (getFileSize mkPMiddleware fsMissing = 0 ∧
      isFileEmpty mkPMiddleware fsMissing = true) ∧
    (getFileSize mkPMiddleware fsEmptyFile = 0 ∧
      isFileEmpty mkPMiddleware fsEmptyFile = true) :=
  ⟨(c10_missing_file_size_zero mkPMiddleware fsMissing).1 rfl,
    (c10_missing_file_size_zero mkPMiddleware fsEmptyFile).2.1 rfl⟩

/-!
## Claim C2 — which mutation paths clear the redo stack
-/

/-- C2 counterexample scenario: commit `{v:2}` and `{v:3}` through
`setState`, undo once (the redo stack now holds one snapshot), then
commit `{z:4}` through `mergeState`. -/
def c2scenario : Manager :=
  let m0 := mkManager []
  let m1 := (setState m0 [("v", JVal.num 2)] true false).1
  let m2 := (setState m1 [("v", JVal.num 3)] true false).1
  let m3 := (undo m2).1
  (mergeState m3 [("z", JVal.num 4)]).1

/-- C2 counterexample: after the committed forward mutation through
`mergeState`, the redo stack is NOT empty — `mergeState` (like
`patchState`) never touches the history stacks. -/
theorem c2_counterexample :
    getRedoStackSize c2scenario = 1 ∧ c2scenario.redoStack ≠ [] := by
  constructor
  · rfl
  · intro h
    have h1 : c2scenario.redoStack.length = 1 := rfl
    rw [h] at h1
    simp at h1

/-- C2 amended: the redo stack is cleared exactly by the committed
mutations that push onto the undo stack — `applyStateUpdate` with
history recording, immediate `setState` with history recording, and a
non-empty batch flush through `endBatchUpdate` — while `mergeState`,
`patchState`, history-less `setState`, and a debounced `setState`
call (before its timer fires) leave the redo stack unchanged. -/
theorem c2_amended (sm : Manager) (s p : Obj) (a : Bool) :
    (applyStateUpdate sm s true).1.redoStack = [] ∧
    (setState sm s true false).1.redoStack = [] ∧
    (endBatchUpdate sm).1.redoStack =
      (if sm.batchUpdateQueue.isEmpty then sm.redoStack else []) ∧
    (mergeState sm p).1.redoStack = sm.redoStack ∧
    (patchState sm p).1.redoStack = sm.redoStack ∧
    (applyStateUpdate sm s false).1.redoStack = sm.redoStack ∧
    (setState sm s a true).1.redoStack = sm.redoStack := by
  refine ⟨rfl, rfl, ?_, rfl, rfl, rfl, rfl⟩
  unfold endBatchUpdate
  cases h : sm.batchUpdateQueue with
  | nil => simp [h]
  | cons q qs => simp [h, setState, applyStateUpdate]

/-!
## Claim C3 — middleware failure isolation
-/

/-- C3: on any commit through `applyStateUpdate`, every enabled
middleware entry is invoked (in order, regardless of earlier throws),
the error handler receives exactly the errors of the throwing enabled
entries (one each), and the commit still completes: the state is
swapped and the notification pass runs. -/
theorem c3_middleware_isolation (sm : Manager) (nextState : Obj) (a : Bool) :
    (applyStateUpdate sm nextState a).2.ran = enabledIds sm.middlewares ∧
    (applyStateUpdate sm nextState a).2.errors = thrownErrors sm.middlewares ∧
    (applyStateUpdate sm nextState a).2.commits = 1 ∧
    (applyStateUpdate sm nextState a).2.notifyPasses = 1 ∧
    (applyStateUpdate sm nextState a).1.state = nextState ∧
    (∀ m ∈ sm.middlewares, m.enabled = true →
      m.id ∈ (applyStateUpdate sm nextState a).2.ran) := by
  have hmw := applyMiddlewares_eq sm.middlewares
  refine ⟨?_, ?_, rfl, rfl, rfl, ?_⟩
  · show (applyMiddlewares sm.middlewares).1 = enabledIds sm.middlewares
    rw [hmw]
  · show (applyMiddlewares sm.middlewares).2 = thrownErrors sm.middlewares
    rw [hmw]
  · intro m hm he
    show m.id ∈ (applyMiddlewares sm.middlewares).1
    rw [hmw]
    unfold enabledIds
    exact List.mem_map_of_mem _ (List.mem_filter.mpr ⟨hm, by simp [he]⟩)

/-!
## Claim C4 — undo/redo round trip
-/

/-- C4: committing `S1` through `setState` with history recording and
then calling `undo` makes the pre-commit state current again; `redo`
after that `undo` makes `S1` current again exactly; `undo` on an
empty undo stack and `redo` on an empty redo stack are no-ops. -/
theorem c4_undo_redo_roundtrip (sm : Manager) (S1 : Obj) :
    (undo (setState sm S1 true false).1).1.state = sm.state ∧
    (redo (undo (setState sm S1 true false).1).1).1.state = S1 ∧
    (sm.undoStack = [] → undo sm = (sm, Effects.none)) ∧
    (sm.redoStack = [] → redo sm = (sm, Effects.none)) := by
  refine ⟨?_, ?_, ?_, ?_⟩
  · simp [setState, applyStateUpdate, undo, cloneObj_eq]
  · simp [setState, applyStateUpdate, undo, redo, cloneObj_eq]
  · intro h; unfold undo; rw [h]
  · intro h; unfold redo; rw [h]

/-- C4 witness: the round trip and the two no-ops at a concrete
manager and state. -/
theorem c4_witness :
    (undo (setState (mkManager []) [("a", JVal.num 1)] true false).1).1.state
        = [] ∧
    (redo (undo (setState (mkManager []) [("a", JVal.num 1)] true false).1).1).1.state
        = [("a", JVal.num 1)] ∧
    undo (mkManager []) = (mkManager [], Effects.none) ∧
    redo (mkManager []) = (mkManager [], Effects.none) := by
  have h := c4_undo_redo_roundtrip (mkManager []) [("a", JVal.num 1)]
  exact ⟨h.1, h.2.1, h.2.2.1 rfl, h.2.2.2 rfl⟩

theorem Effects.seq_none_right (e : Effects) : Effects.seq e Effects.none = e := by
  cases e; simp [Effects.seq, Effects.none]

/-!
## Claim C5 — batch flush is a single commit of the merged partials
-/

/-- A sequence of `queueBatchUpdate` calls, accumulating effects. -/
def queueAll (sm : Manager) (ps : List Obj) : Manager × Effects :=
  ps.foldl
    (fun acc p =>
      let r := queueBatchUpdate acc.1 p
      (r.1, Effects.seq acc.2 r.2))
    (sm, Effects.none)

theorem queueAll_go (ps : List Obj) : ∀ (sm : Manager) (e : Effects),
    sm.batchUpdatePending = true →
    ps.foldl
      (fun acc p =>
        let r := queueBatchUpdate acc.1 p
        (r.1, Effects.seq acc.2 r.2))
      (sm, e)
    = ({ sm with batchUpdateQueue := sm.batchUpdateQueue ++ ps }, e) := by
  induction ps with
  | nil => intro sm e _; simp
  | cons p ps ih =>
      intro sm e h
      have step : queueBatchUpdate sm p =
          ({ sm with batchUpdateQueue := sm.batchUpdateQueue ++ [p] },
            Effects.none) := by
        unfold queueBatchUpdate; rw [h]; simp
      rw [List.foldl_cons]
      simp only [step, Effects.seq_none_right]
      have h2 : ({ sm with batchUpdateQueue := sm.batchUpdateQueue ++ [p] }
          : Manager).batchUpdatePending = true := h
      refine (ih { sm with batchUpdateQueue := sm.batchUpdateQueue ++ [p] } e h2).trans ?_
      rw [List.append_assoc]
      exact rfl

theorem queueAll_pending (sm : Manager) (ps : List Obj)
    (h : sm.batchUpdatePending = true) :
    queueAll sm ps =
      ({ sm with batchUpdateQueue := sm.batchUpdateQueue ++ ps }, Effects.none) :=
  queueAll_go ps sm Effects.none h

/-- C5: bracketing any sequence of partials between `startBatchUpdate`
and `endBatchUpdate` produces no observable effect while queueing, and
the flush performs exactly one commit and one notification pass whose
committed state is the left-to-right `Object.assign` fold of the
partials (or nothing at all when no partial was queued). -/
theorem c5_batch_single_commit (sm : Manager) (ps : List Obj) :
    (queueAll (startBatchUpdate sm) ps).2 = Effects.none ∧
    (endBatchUpdate (queueAll (startBatchUpdate sm) ps).1).2 =
      (if ps.isEmpty then Effects.none
        else ⟨enabledIds sm.middlewares, thrownErrors sm.middlewares, 1, 1⟩) ∧
    (endBatchUpdate (queueAll (startBatchUpdate sm) ps).1).1.state =
      (if ps.isEmpty then sm.state else ps.foldl objAssign []) ∧
    (endBatchUpdate
        (queueAll (startBatchUpdate (mkManager []))
          [[("count", JVal.num 1)], [("name", JVal.str "test")]]).1).1.state =
      [("count", JVal.num 1), ("name", JVal.str "test")] := by
  have hq := queueAll_pending (startBatchUpdate sm) ps rfl
  refine ⟨by rw [hq], ?_, ?_, by rfl⟩
  · rw [hq]
    cases ps with
    | nil => rfl
    | cons p ps =>
        simp only [List.isEmpty_cons, if_neg]
        unfold endBatchUpdate
        simp only [startBatchUpdate]
        simp [setState, applyStateUpdate, applyMiddlewares_eq]
  · rw [hq]
    cases ps with
    | nil => rfl
    | cons p ps =>
        simp only [List.isEmpty_cons, if_neg]
        unfold endBatchUpdate
        simp only [startBatchUpdate]
        simp [setState, applyStateUpdate, applyMiddlewares_eq, cloneObj_eq]

/-!
## Claim C6 — debounced calls coalesce to the last argument
-/

/-- A burst of debounced `setState` calls issued within one delay
window (no timer fires in between), accumulating effects. -/
def debounceCalls (sm : Manager) (cs : List Obj) (a : Bool) : Manager × Effects :=
  cs.foldl
    (fun acc c =>
      let r := setState acc.1 c a true
      (r.1, Effects.seq acc.2 r.2))
    (sm, Effects.none)

theorem debounceCalls_go (cs : List Obj) : ∀ (sm : Manager) (e : Effects)
    (c : Obj) (a : Bool),
    (cs ++ [c]).foldl
      (fun acc c =>
        let r := setState acc.1 c a true
        (r.1, Effects.seq acc.2 r.2))
      (sm, e)
    = ({ sm with pendingDebounce :=
          Option.some (cloneObj sm.deepStateComparison c, a) }, e) := by
  induction cs with
  | nil =>
      intro sm e c a
      have step : setState sm c a true =
          ({ sm with pendingDebounce :=
              Option.some (cloneObj sm.deepStateComparison c, a) },
            Effects.none) := rfl
      simp only [List.nil_append, List.foldl_cons, List.foldl_nil, step,
        Effects.seq_none_right]
  | cons c0 cs ih =>
      intro sm e c a
      have step : setState sm c0 a true =
          ({ sm with pendingDebounce :=
              Option.some (cloneObj sm.deepStateComparison c0, a) },
            Effects.none) := rfl
      rw [List.cons_append, List.foldl_cons]
      simp only [step, Effects.seq_none_right]
      exact ih _ e c a

theorem debounceCalls_last (sm : Manager) (cs : List Obj) (c : Obj) (a : Bool) :
    debounceCalls sm (cs ++ [c]) a =
      ({ sm with pendingDebounce :=
          Option.some (cloneObj sm.deepStateComparison c, a) },
        Effects.none) :=
  debounceCalls_go cs sm Effects.none c a

/-- C6: within one debounce window, every debounced call overwrites
the pending scheduled commit and produces no observable effect; when
the delay elapses, exactly one mutation is committed and exactly one
notification pass runs, and the committed state is the last call's
argument. -/
theorem c6_debounce_coalesce (sm : Manager) (a : Bool) (cs : List Obj) (c : Obj) :
    (mkManager []).debounceDelay = 200 ∧
    (setState sm c a true).2 = Effects.none ∧
    (setState sm c a true).1.pendingDebounce =
      Option.some (cloneObj sm.deepStateComparison c, a) ∧
    (debounceCalls sm (cs ++ [c]) a).2 = Effects.none ∧
    (fireDebounce (debounceCalls sm (cs ++ [c]) a).1).2.commits = 1 ∧
    (fireDebounce (debounceCalls sm (cs ++ [c]) a).1).2.notifyPasses = 1 ∧
    (fireDebounce (debounceCalls sm (cs ++ [c]) a).1).1.state = c ∧
    (fireDebounce (debounceCalls sm (cs ++ [c]) a).1).1.pendingDebounce =
      Option.none := by
  have hd := debounceCalls_last sm cs c a
  refine ⟨rfl, rfl, rfl, by rw [hd], ?_, ?_, ?_, ?_⟩ <;>
    rw [hd] <;> cases a <;>
      simp [fireDebounce, applyStateUpdate, cloneObj_eq]

/-!
## Claim C8 — detach closures remove all registrations, idempotently
-/

theorem find?_setEventCallbacks (els : List (String × List Nat)) (n : String)
    (x : List Nat) :
    (setEventCallbacks els n x).find? (fun kv => kv.1 == n) = Option.some (n, x) := by
  induction els with
  | nil =>
      show List.find? (fun kv => kv.1 == n) [(n, x)] = Option.some (n, x)
      rw [List.find?_cons_of_pos _ (by simp)]
  | cons kv els ih =>
      unfold setEventCallbacks at ih ⊢
      cases hk : (kv.1 == n) with
      | true =>
          rw [List.any_cons, hk, Bool.true_or, if_pos rfl, List.map_cons]
          have hf : (if (kv.1 == n) = true then (n, x) else kv) = (n, x) :=
            if_pos hk
          simp only [hf]
          rw [List.find?_cons_of_pos _ (by simp)]
      | false =>
          have hf : (if (kv.1 == n) = true then (n, x) else kv) = kv :=
            if_neg (by simp [hk])
          cases ha : els.any (fun kv => kv.1 == n) with
          | true =>
              have ih2 := ih
              rw [if_pos ha] at ih2
              rw [List.any_cons, hk, Bool.false_or, ha, if_pos rfl, List.map_cons]
              simp only [hf]
              rw [List.find?_cons_of_neg _ (by simp [hk])]
              exact ih2
          | false =>
              have ih2 := ih
              rw [if_neg (by simp [ha])] at ih2
              rw [List.any_cons, hk, Bool.false_or, ha, if_neg (by simp),
                List.cons_append]
              rw [List.find?_cons_of_neg _ (by simp [hk])]
              exact ih2

theorem eventCallbacks_set (sm : Manager) (n : String) (x : List Nat) :
    eventCallbacks
      { sm with eventListeners := setEventCallbacks sm.eventListeners n x } n
      = x := by
  unfold eventCallbacks
  rw [show ({ sm with
        eventListeners := setEventCallbacks sm.eventListeners n x }
      : Manager).eventListeners = setEventCallbacks sm.eventListeners n x from rfl]
  rw [find?_setEventCallbacks]

theorem eventCallbacks_onEvent (sm : Manager) (n : String) (cb : Nat) :
    eventCallbacks (onEvent sm n cb) n = eventCallbacks sm n ++ [cb] :=
  eventCallbacks_set sm n (eventCallbacks sm n ++ [cb])

theorem eventCallbacks_offEvent (sm : Manager) (n : String) (cb : Nat) :
    eventCallbacks (offEvent sm n cb) n =
      (eventCallbacks sm n).filter (fun x => x != cb) :=
  eventCallbacks_set sm n ((eventCallbacks sm n).filter (fun x => x != cb))

/-- C8: a detach closure (from `subscribe` or from `on`) removes every
registration of the captured reference from the respective list in one
call, and calling it again — or calling it when the reference was
never registered — leaves the list unchanged. -/
theorem c8_detach_removes_all (sm : Manager) (l : Nat) (n : String) (cb : Nat) :
    l ∉ (unsubscribeAll sm l).listeners ∧
    unsubscribeAll (subscribe (subscribe sm l) l) l = unsubscribeAll sm l ∧
    unsubscribeAll (unsubscribeAll sm l) l = unsubscribeAll sm l ∧
    (l ∉ sm.listeners → unsubscribeAll sm l = sm) ∧
    cb ∉ eventCallbacks (offEvent sm n cb) n ∧
    eventCallbacks (offEvent (onEvent (onEvent sm n cb) n cb) n cb) n =
      (eventCallbacks sm n).filter (fun x => x != cb) ∧
    eventCallbacks (offEvent (offEvent sm n cb) n cb) n =
      eventCallbacks (offEvent sm n cb) n ∧
    (cb ∉ eventCallbacks sm n →
      eventCallbacks (offEvent sm n cb) n = eventCallbacks sm n) := by
  refine ⟨?_, ?_, ?_, ?_, ?_, ?_, ?_, ?_⟩
  · simp [unsubscribeAll, List.mem_filter]
  · simp [unsubscribeAll, subscribe, List.filter_append, Manager.mk.injEq]
  · simp [unsubscribeAll, List.filter_filter, Manager.mk.injEq]
  · intro h
    have : sm.listeners.filter (fun x => x != l) = sm.listeners := by
      refine List.filter_eq_self.mpr ?_
      intro a ha
      simp only [bne_iff_ne, ne_eq, decide_eq_true_eq]
      intro heq; exact h (heq ▸ ha)
    unfold unsubscribeAll
    rw [this]
  · rw [eventCallbacks_offEvent]
    simp [List.mem_filter]
  · rw [eventCallbacks_offEvent, eventCallbacks_onEvent, eventCallbacks_onEvent]
    simp [List.filter_append]
  · rw [eventCallbacks_offEvent, eventCallbacks_offEvent]
    simp [List.filter_filter]
  · intro h
    rw [eventCallbacks_offEvent]
    refine List.filter_eq_self.mpr ?_
    intro a ha
    simp only [bne_iff_ne, ne_eq, decide_eq_true_eq]
    intro heq; exact h (heq ▸ ha)

/-- C8 witness: at a concrete manager with the listener `7` subscribed
twice and the callback `3` registered twice under `"evt"`. -/
theorem c8_witness :
    7 ∉ (unsubscribeAll (subscribe (subscribe (mkManager []) 7) 7) 7).listeners ∧
    unsubscribeAll (mkManager []) 7 = mkManager [] ∧
    eventCallbacks
        (offEvent (onEvent (onEvent (mkManager []) "evt" 3) "evt" 3) "evt" 3)
        "evt" = [] ∧
    eventCallbacks (offEvent (mkManager []) "evt" 3) "evt" =
      eventCallbacks (mkManager []) "evt" := by
  refine ⟨(c8_detach_removes_all (subscribe (subscribe (mkManager []) 7) 7)
      7 "evt" 3).1, ?_, ?_, ?_⟩
  · exact (c8_detach_removes_all (mkManager []) 7 "evt" 3).2.2.2.1
      (by simp [mkManager])
  · exact ((c8_detach_removes_all (mkManager []) 7 "evt" 3).2.2.2.2.2.1).trans rfl
  · exact (c8_detach_removes_all (mkManager []) 7 "evt" 3).2.2.2.2.2.2.2
      (by simp [mkManager, eventCallbacks])

/-!
## Claim C7 — deep-mode reads alias nothing, shallow-mode reads do
-/

/-- `h1` extends `h`: no existing cell is touched, cells are only
appended. -/
def HeapExt (h h1 : Heap) : Prop :=
  h.objs.length ≤ h1.objs.length ∧
  ∀ i, i < h.objs.length → h1.objs[i]? = h.objs[i]?

/-- Every reference occurring in `v` is at least `n` (i.e. fresh with
respect to a heap of length `n`). -/
def valRefsGE (v : HVal) (n : Nat) : Prop :=
  ∀ r, v = HVal.href r → n ≤ r

/-- Every reference stored in a field of `o` is at least `n`. -/
def objRefsGE (o : HObj) (n : Nat) : Prop :=
  ∀ kv ∈ o, valRefsGE kv.2 n

theorem heapExt_refl (h : Heap) : HeapExt h h :=
  ⟨Nat.le_refl _, fun _ _ => rfl⟩

theorem heapExt_trans {h1 h2 h3 : Heap} (a : HeapExt h1 h2) (b : HeapExt h2 h3) :
    HeapExt h1 h3 :=
  ⟨Nat.le_trans a.1 b.1,
    fun i hi => (b.2 i (Nat.lt_of_lt_of_le hi a.1)).trans (a.2 i hi)⟩

theorem heapExt_append (h : Heap) (o : HObj) :
    HeapExt h { objs := h.objs ++ [o] } :=
  ⟨by simp, fun i hi => List.getElem?_append_left hi⟩

theorem valRefsGE_mono {v : HVal} {m n : Nat} (hmn : m ≤ n)
    (hv : valRefsGE v n) : valRefsGE v m :=
  fun r hr => Nat.le_trans hmn (hv r hr)

/-- The copy never touches existing heap cells, and every reference it
produces points at a freshly allocated cell. -/
theorem deepCopy_spec : ∀ fuel : Nat,
    (∀ (h : Heap) (v : HVal) (h1 : Heap) (v1 : HVal),
      deepCopyVal fuel h v = Option.some (h1, v1) →
      HeapExt h h1 ∧ valRefsGE v1 h.objs.length) ∧
    (∀ (h : Heap) (o : HObj) (h1 : Heap) (o1 : HObj),
      deepCopyObj fuel h o = Option.some (h1, o1) →
      HeapExt h h1 ∧ objRefsGE o1 h.objs.length) := by
  intro fuel
  induction fuel with
  | zero =>
      constructor
      · intro h v h1 v1 he
        cases v with
        | hnum m =>
            rw [deepCopyVal] at he
            simp only [Option.some.injEq, Prod.mk.injEq] at he
            obtain ⟨rfl, rfl⟩ := he
            exact ⟨heapExt_refl h, fun r hr => by cases hr⟩
        | href r => rw [deepCopyVal] at he; cases he
      · intro h o h1 o1 he
        cases o with
        | nil =>
            rw [deepCopyObj] at he
            simp only [Option.some.injEq, Prod.mk.injEq] at he
            obtain ⟨rfl, rfl⟩ := he
            exact ⟨heapExt_refl h, fun kv hkv => absurd hkv (List.not_mem_nil kv)⟩
        | cons hd rest => rw [deepCopyObj] at he; cases he
  | succ fl ih =>
      obtain ⟨ihv, iho⟩ := ih
      constructor
      · intro h v h1 v1 he
        cases v with
        | hnum m =>
            rw [deepCopyVal] at he
            simp only [Option.some.injEq, Prod.mk.injEq] at he
            obtain ⟨rfl, rfl⟩ := he
            exact ⟨heapExt_refl h, fun r hr => by cases hr⟩
        | href r =>
            rw [deepCopyVal] at he
            cases hcell : h.objs[r]? with
            | none => simp [hcell] at he
            | some cell =>
                simp only [hcell] at he
                cases hobj : deepCopyObj fl h cell with
                | none => simp [hobj] at he
                | some pr =>
                    obtain ⟨hA, o1⟩ := pr
                    simp only [hobj, Option.some.injEq, Prod.mk.injEq] at he
                    obtain ⟨rfl, rfl⟩ := he
                    have s := iho h cell hA o1 hobj
                    refine ⟨heapExt_trans s.1 (heapExt_append hA o1), ?_⟩
                    intro r2 hr2
                    cases hr2
                    exact s.1.1
      · intro h o h1 o1 he
        cases o with
        | nil =>
            rw [deepCopyObj] at he
            simp only [Option.some.injEq, Prod.mk.injEq] at he
            obtain ⟨rfl, rfl⟩ := he
            exact ⟨heapExt_refl h, fun kv hkv => absurd hkv (List.not_mem_nil kv)⟩
        | cons hd rest =>
            obtain ⟨k, v⟩ := hd
            rw [deepCopyObj] at he
            cases hv : deepCopyVal fl h v with
            | none => simp [hv] at he
            | some pr =>
                obtain ⟨hA, v1⟩ := pr
                simp only [hv] at he
                cases ho : deepCopyObj fl hA rest with
                | none => simp [ho] at he
                | some pr2 =>
                    obtain ⟨hB, o2⟩ := pr2
                    simp only [ho, Option.some.injEq, Prod.mk.injEq] at he
                    obtain ⟨rfl, rfl⟩ := he
                    have s1 := ihv h v hA v1 hv
                    have s2 := iho hA rest hB o2 ho
                    refine ⟨heapExt_trans s1.1 s2.1, ?_⟩
                    intro kv2 hkv2
                    rcases List.mem_cons.mp hkv2 with hhd | htl
                    · rw [hhd]; exact s1.2
                    · exact valRefsGE_mono s1.1.1 (s2.2 kv2 htl)

theorem deepCopyObj_spec (fuel : Nat) (h : Heap) (o : HObj)
    (h1 : Heap) (o1 : HObj)
    (he : deepCopyObj fuel h o = Option.some (h1, o1)) :
    HeapExt h h1 ∧ objRefsGE o1 h.objs.length :=
  (deepCopy_spec fuel).2 h o h1 o1 he

/-- The concrete heap of the spec's scenario: one cell holding
`{value: 1}`. -/
def c7heap : Heap := ⟨[[("value", HVal.hnum 1)]]⟩

/-- The manager holding `{nested: <ref 0>}` in shallow mode. -/
def c7mgrShallow : HManager := ⟨[("nested", HVal.href 0)], false⟩

/-- C7: with deep comparison enabled, a value returned by `getState`
holds no alias of the internal state — any reference read out of it is
fresh, and mutating through it leaves every internal nested read
unchanged; with deep comparison disabled, `getState` hands out the
internally stored references themselves, and external mutation of a
nested object is observed internally (value `1` becomes `2` in the
spec's scenario). -/
theorem c7_getState_aliasing :
    (∀ (fuel : Nat) (h : Heap) (m : HManager) (h2 : Heap) (g : HObj),
      m.deepStateComparison = true →
      getStateH fuel h m = Option.some (h2, g) →
      ∀ (k1 : String) (r rc : Nat),
        getFieldH m.state k1 = Option.some (HVal.href r) →
        getFieldH g k1 = Option.some (HVal.href rc) →
        r < h.objs.length →
        h.objs.length ≤ rc ∧
        ∀ (k2 : String) (v : HVal),
          readNested (heapSet h2 rc k2 v) m k1 k2 = readNested h m k1 k2) ∧
    (∀ (m : HManager) (fuel : Nat) (h : Heap),
      m.deepStateComparison = false →
      getStateH fuel h m = Option.some (h, shallowCopyObj m.state) ∧
      ∀ k, getFieldH (shallowCopyObj m.state) k = getFieldH m.state k) ∧
    (readNested c7heap c7mgrShallow "nested" "value" =
        Option.some (HVal.hnum 1) ∧
      getFieldH (shallowCopyObj c7mgrShallow.state) "nested" =
        Option.some (HVal.href 0) ∧
      readNested (heapSet c7heap 0 "value" (HVal.hnum 2)) c7mgrShallow
        "nested" "value" = Option.some (HVal.hnum 2)) := by
  refine ⟨?_, ?_, by decide, by decide, by decide⟩
  · intro fuel h m h2 g hdeep hget k1 r rc hint hext hr
    rw [getStateH, if_pos hdeep] at hget
    have s := deepCopyObj_spec fuel h m.state h2 g hget
    have hrc : h.objs.length ≤ rc := by
      unfold getFieldH at hext
      cases hfind : g.find? (fun kv => kv.1 == k1) with
      | none => rw [hfind] at hext; cases hext
      | some kv0 =>
          rw [hfind] at hext
          simp only [Option.some.injEq] at hext
          have hmem := List.mem_of_find?_eq_some hfind
          exact s.2 kv0 hmem rc hext
    refine ⟨hrc, ?_⟩
    intro k2 v
    have hcell : (heapSet h2 rc k2 v).objs[r]? = h.objs[r]? := by
      unfold heapSet
      have hne : rc ≠ r := Nat.ne_of_gt (Nat.lt_of_lt_of_le hr hrc)
      rw [List.getElem?_set_ne hne]
      exact s.1.2 r hr
    unfold readNested
    simp only [hint]
    rw [hcell]
  · intro m fuel h hsh
    constructor
    · rw [getStateH, if_neg (by rw [hsh]; exact Bool.false_ne_true)]
    · intro k
      rw [shallowCopyObj, List.map_id]

/-- The manager holding `{nested: <ref 0>}` in deep mode. -/
def c7mgrDeep : HManager := ⟨[("nested", HVal.href 0)], true⟩

/-- The heap after the deep `getState` of the C7 witness: the original
cell plus the freshly allocated copy. -/
def c7heapAfter : Heap :=
  ⟨[[("value", HVal.hnum 1)], [("value", HVal.hnum 1)]]⟩

/-- C7 witness: in the concrete deep-mode scenario the returned copy
references the fresh cell `1`, and writing `2` through it leaves the
internal read at `1`. -/
theorem c7_witness :
    getStateH 3 c7heap c7mgrDeep =
      Option.some (c7heapAfter, [("nested", HVal.href 1)]) ∧
    c7heap.objs.length ≤ 1 ∧
    readNested (heapSet c7heapAfter 1 "value" (HVal.hnum 2)) c7mgrDeep
        "nested" "value" =
      readNested c7heap c7mgrDeep "nested" "value" ∧
    readNested c7heap c7mgrDeep "nested" "value" =
      Option.some (HVal.hnum 1) := by
  have hget : getStateH 3 c7heap c7mgrDeep =
      Option.some (c7heapAfter, [("nested", HVal.href 1)]) := by decide
  have h := (c7_getState_aliasing).1 3 c7heap c7mgrDeep c7heapAfter
    [("nested", HVal.href 1)] rfl hget "nested" 0 1 rfl rfl (by decide)
  exact ⟨hget, h.1, h.2 "value" (HVal.hnum 2), by decide⟩

/-- A manager with two independently registered middlewares, the first
of which throws error `9` on every invocation. -/
def c3mgr : Manager :=
  { mkManager [] with
      middlewares := [⟨0, Option.some 9, true⟩, ⟨1, Option.none, true⟩] }

/-- C3 witness: with a throwing first middleware, the second still
runs, the error handler is invoked exactly once, and the commit and
its notification complete. -/
theorem c3_witness :
    (applyStateUpdate c3mgr [("k", JVal.num 5)] true).2.ran = [0, 1] ∧
    (applyStateUpdate c3mgr [("k", JVal.num 5)] true).2.errors = [9] ∧
    (applyStateUpdate c3mgr [("k", JVal.num 5)] true).2.notifyPasses = 1 ∧
    (applyStateUpdate c3mgr [("k", JVal.num 5)] true).1.state =
      [("k", JVal.num 5)] ∧
    1 ∈ (applyStateUpdate c3mgr [("k", JVal.num 5)] true).2.ran := by
  have h := c3_middleware_isolation c3mgr [("k", JVal.num 5)] true
  refine ⟨h.1.trans rfl, h.2.1.trans rfl, h.2.2.2.1, h.2.2.2.2.1, ?_⟩
  exact h.2.2.2.2.2 ⟨1, Option.none, true⟩ (by decide) rfl
